import Mathlib

/-!
Shallow embedding of the actions-dashboard program (src/main.go) and proofs
about its run-window aggregation and card-grid layout logic.

Modelling conventions:
* Go `time.Time` / `time.Duration` are int64 nanosecond counts; both are
  modelled as `Int` (nanoseconds).  `time.Since(t)` is `now - t` for an
  explicit `now` parameter.
* Go `int` arithmetic is modelled by `Int`; Go integer division truncates
  toward zero, which is `Int.tdiv`.  `int(d.Seconds())` (float seconds,
  converted with truncation toward zero) is modelled as `d.tdiv 1000000000`.
* Strings are modelled by Lean `String` over their character sequence;
  `strings.HasPrefix` is modelled on the character lists.
* The external `gh` fetches are injected as function parameters
  (`runsOf` keyed by workflow URL, `billing` keyed by run URL); text
  styling (lipgloss) is dropped as pure presentation, keeping the
  semantic glyphs.
* A Go slice of known length is modelled as a `List`; an indexed access is
  `List.get?`, and `none` models an out-of-bounds access (a Go panic).
-/

namespace ActionsDashboard

/-- Go `const defaultMaxRuns = 5` (src/main.go:24). -/
def defaultMaxRuns : Nat := 5

/-- Go `const defaultWorkflowNameLength = 17` (src/main.go:25). -/
def defaultWorkflowNameLength : Nat := 17

/-- Go `strings.HasPrefix s p`, modelled on the character sequences. -/
def hasPrefixStr (s p : String) : Bool := p.toList.isPrefixOf s.toList

/-- Go `type run struct` (src/main.go:28-34); times/durations in nanoseconds. -/
structure run where
  Finished : Int
  Elapsed : Int
  Status : String
  Conclusion : String
  URL : String
deriving DecidableEq

/-- Go `type workflow struct` (src/main.go:36-40). -/
structure workflow where
  Name : String
  Runs : List run
  BillableMs : Int
deriving DecidableEq

/-- The glyph appended for one run by `RenderHealth` (src/main.go:53-65):
status not "completed" gives "-", then the conclusion switch gives
"✓" for success, "-" for skipped/cancelled/neutral, "x" otherwise. -/
def healthSymbol (r : run) : String :=
  if r.Status ≠ "completed" then "-"
  else if r.Conclusion = "success" then "✓"
  else if r.Conclusion = "skipped" ∨ r.Conclusion = "cancelled" ∨ r.Conclusion = "neutral" then "-"
  else "x"

/-- The loop of `RenderHealth` (src/main.go:48-66): `results` is the
accumulator, the first argument is the range index `i`, and the loop
breaks when `i > defaultMaxRuns`. -/
def renderHealthAux : Nat → String → List run → String
  | _, results, [] => results
  | i, results, r :: rest =>
    if i > defaultMaxRuns then results
    else renderHealthAux (i + 1) (results ++ healthSymbol r) rest

/-- Go `func (w *workflow) RenderHealth() string` (src/main.go:42-69). -/
def workflow.RenderHealth (w : workflow) : String :=
  renderHealthAux 0 "" w.Runs

/-- Concatenation of a sequence of symbols into one rendered string. -/
def joinSyms : List String → String
  | [] => ""
  | s :: rest => s ++ joinSyms rest

/-- The summing loop of `AverageElapsed` (src/main.go:75-81):
`totalTime += int(r.Elapsed.Seconds())`, breaking when `i > defaultMaxRuns`;
the float-to-int conversion truncates toward zero (`Int.tdiv`). -/
def averageElapsedAux : Nat → Int → List run → Int
  | _, totalTime, [] => totalTime
  | i, totalTime, r :: rest =>
    if i > defaultMaxRuns then totalTime
    else averageElapsedAux (i + 1) (totalTime + r.Elapsed.tdiv 1000000000) rest

/-- Go `func (w *workflow) AverageElapsed() time.Duration` (src/main.go:71-89):
`averageTime = totalTime / defaultMaxRuns` (Go division truncates toward
zero), then `time.ParseDuration(fmt.Sprintf("%ds", averageTime))` turns the
whole-second count back into a duration (nanoseconds). -/
def workflow.AverageElapsed (w : workflow) : Int :=
  let totalTime := averageElapsedAux 0 0 w.Runs
  let averageTime := totalTime.tdiv (defaultMaxRuns : Int)
  averageTime * 1000000000

/-- The whole-second count `int(r.Elapsed.Seconds())` of one run. -/
def elapsedSeconds (r : run) : Int := r.Elapsed.tdiv 1000000000

/-- Go `func truncateWorkflowName(name string, length int) string`
(src/main.go:91-97). -/
def truncateWorkflowName (name : String) (length : Nat) : String :=
  if name.length > length then String.mk (name.toList.take length) ++ "..." else name

/-- The `runPayload` record decoded from the runs listing
(src/main.go:318-325); times in nanoseconds. -/
structure runPayload where
  Id : Int
  CreatedAt : Int
  UpdatedAt : Int
  Status : String
  Conclusion : String
  URL : String
deriving DecidableEq

/-- The `workflowsPayload` record decoded from the workflow listing
(src/main.go:303-308). -/
structure workflowPayload where
  Id : Int
  State : String
  Name : String
  URL : String
deriving DecidableEq

/-- The `billablePayload` record (src/main.go:327-337): per-platform
`total_ms` values. -/
structure billablePayload where
  MacOs : Int
  Windows : Int
  Ubuntu : Int
deriving DecidableEq

/-- The body of the run loop (src/main.go:360-372): a `run` record is kept
only when `r.Status == "completed"` and `last - time.Since(rr.Finished) > 0`;
`Finished` is `UpdatedAt` and `Elapsed` is `UpdatedAt - CreatedAt`. -/
def keepRun (now last : Int) (r : runPayload) : Option run :=
  if r.Status = "completed" then
    let rr : run :=
      { Finished := r.UpdatedAt, Elapsed := r.UpdatedAt - r.CreatedAt,
        Status := r.Status, Conclusion := r.Conclusion, URL := r.URL }
    let finishedAgo := now - rr.Finished
    if last - finishedAgo > 0 then some rr else none
  else none

/-- The run filter loop of `getWorkflows` (src/main.go:358-372). -/
def filterRuns (now last : Int) (rs : List runPayload) : List run :=
  rs.filterMap (keepRun now last)

/-- The `run` record built for a completed payload (src/main.go:361-365). -/
def mkRun (r : runPayload) : run :=
  { Finished := r.UpdatedAt, Elapsed := r.UpdatedAt - r.CreatedAt,
    Status := r.Status, Conclusion := r.Conclusion, URL := r.URL }

/-- The workflow loop of `getWorkflows` (src/main.go:341-397).  The first
explicit argument is the accumulator `totalMs`, which in the source is
declared once before the loop (src/main.go:339) and never reset, so it is
threaded from one workflow to the next.  `runsOf` models the runs fetch
keyed by workflow URL and `billing` models the timing fetch keyed by run
URL. -/
def getWorkflowsAux (priv : Bool) (now last : Int) (runsOf : String → List runPayload)
    (billing : String → billablePayload) : Int → List workflowPayload → List workflow
  | _, [] => []
  | totalMs, w :: rest =>
    if hasPrefixStr w.State "disabled" then
      getWorkflowsAux priv now last runsOf billing totalMs rest
    else
      let runs := filterRuns now last (runsOf w.URL)
      let totalMs' :=
        if priv then
          runs.foldl (fun acc r =>
            acc + ((billing r.URL).MacOs + (billing r.URL).Windows + (billing r.URL).Ubuntu))
            totalMs
        else totalMs
      { Name := w.Name, Runs := runs, BillableMs := totalMs' } ::
        getWorkflowsAux priv now last runsOf billing totalMs' rest

/-- Go `func getWorkflows(repoData repositoryData, last time.Duration)`
(src/main.go:294-400), starting from `var totalMs int` (zero). -/
def getWorkflows (priv : Bool) (now last : Int) (runsOf : String → List runPayload)
    (billing : String → billablePayload) (ws : List workflowPayload) : List workflow :=
  getWorkflowsAux priv now last runsOf billing 0 ws

variable {α : Type}

/-- One iteration of the card-placing loop of `_main` (src/main.go:219-225):
read `cardRows[rowIndex]`, advance `rowIndex` when that row already holds
`cardsPerRow` cards, then append to `cardRows[rowIndex]`.  `none` models an
out-of-bounds slice access (a Go panic). -/
def layoutStep (cardsPerRow : Nat) (st : List (List α) × Nat) (c : α) :
    Option (List (List α) × Nat) :=
  (st.1[st.2]?).bind fun cur =>
    let rowIndex := if cur.length = cardsPerRow then st.2 + 1 else st.2
    (st.1[rowIndex]?).bind fun cur2 =>
      some (st.1.set rowIndex (cur2 ++ [c]), rowIndex)

/-- Go `totalRows := int(math.Ceil(float64(cardCount) / float64(cardsPerRow)))`
(src/main.go:215); for `cardsPerRow ≥ 1` this is `(n + k - 1) / k`. -/
def totalRowsFor (cardsPerRow cardCount : Nat) : Nat :=
  (cardCount + cardsPerRow - 1) / cardsPerRow

/-- The card grid layout of `_main` (src/main.go:215-225): pre-allocate
`totalRows` empty rows, start at `rowIndex = 0`, and place the cards in
order; the result is the final `(cardRows, rowIndex)` state. -/
def layoutCards (cardsPerRow : Nat) (cards : List α) : Option (List (List α) × Nat) :=
  List.foldlM (layoutStep cardsPerRow)
    (List.replicate (totalRowsFor cardsPerRow cards.length) [], 0) cards

/-- Row `j` of the finished grid: the cards at positions `[j*k, j*k+k)`. -/
def expectedRows (k R : Nat) (l : List α) : List (List α) :=
  (List.range R).map fun j => (l.drop (j * k)).take k

/-- The row index held by the layout loop after `m` cards have been placed
(`(m-1)/k`, using truncated `Nat` subtraction so that it is `0` at `m = 0`). -/
def rowIdx (k m : Nat) : Nat := (m - 1) / k

/-! Lemmas about the card grid layout. -/

lemma expectedRows_length (k R : Nat) (l : List α) : (expectedRows k R l).length = R := by
  simp [expectedRows]

lemma expectedRows_getElem (k R : Nat) (l : List α) (j : Nat) :
    (expectedRows k R l)[j]? = if j < R then some ((l.drop (j * k)).take k) else none := by
  by_cases h : j < R
  · rw [if_pos h]
    unfold expectedRows
    rw [List.getElem?_map, List.getElem?_range h]
    rfl
  · rw [if_neg h]
    apply List.getElem?_eq_none
    rw [expectedRows_length]
    omega

lemma drop_take_append_low (l : List α) (c : α) (a k : Nat) (h : a + k ≤ l.length) :
    ((l ++ [c]).drop a).take k = (l.drop a).take k := by
  rw [List.drop_append_eq_append_drop, Nat.sub_eq_zero_of_le (by omega), List.drop_zero,
    List.take_append_eq_append_take, List.length_drop,
    Nat.sub_eq_zero_of_le (show k ≤ l.length - a by omega)]
  simp

lemma drop_take_append_high (l : List α) (c : α) (a k : Nat) (h : l.length < a) :
    ((l ++ [c]).drop a).take k = (l.drop a).take k := by
  rw [List.drop_append_eq_append_drop, List.drop_eq_nil_of_le (Nat.le_of_lt h),
    List.drop_eq_nil_of_le (show ([c] : List α).length ≤ a - l.length by simp; omega)]
  simp

lemma drop_take_append_mid (l : List α) (c : α) (a k : Nat) (h1 : a ≤ l.length)
    (h2 : l.length < a + k) :
    ((l ++ [c]).drop a).take k = (l.drop a).take k ++ [c] := by
  rw [List.drop_append_eq_append_drop, Nat.sub_eq_zero_of_le h1, List.drop_zero,
    List.take_append_eq_append_take, List.length_drop,
    List.take_of_length_le (show ([c] : List α).length ≤ k - (l.length - a) by simp; omega)]

lemma expectedRows_set_append (k R : Nat) (hk : 0 < k) (done : List α) (c : α)
    (hq : done.length / k < R) :
    (expectedRows k R done).set (done.length / k)
        ((done.drop (done.length / k * k)).take k ++ [c]) =
      expectedRows k R (done ++ [c]) := by
  have hik : done.length / k * k ≤ done.length := Nat.div_mul_le_self _ k
  have hmod : k * (done.length / k) + done.length % k = done.length := Nat.div_add_mod _ k
  have hmlt : done.length % k < k := Nat.mod_lt _ hk
  have hcap : done.length < done.length / k * k + k := by
    calc done.length = k * (done.length / k) + done.length % k := hmod.symm
      _ < k * (done.length / k) + k := Nat.add_lt_add_left hmlt _
      _ = done.length / k * k + k := by rw [Nat.mul_comm]
  apply List.ext_getElem?
  intro j
  rw [List.getElem?_set]
  by_cases hji : done.length / k = j
  · subst hji
    rw [if_pos rfl, expectedRows_length, if_pos hq, expectedRows_getElem, if_pos hq,
      drop_take_append_mid _ _ _ _ hik hcap]
  · rw [if_neg hji, expectedRows_getElem, expectedRows_getElem]
    by_cases hjR : j < R
    · rw [if_pos hjR, if_pos hjR]
      rcases Nat.lt_or_ge j (done.length / k) with hj | hj
      · have h1 : (j + 1) * k ≤ done.length / k * k := Nat.mul_le_mul_right k hj
        rw [Nat.succ_mul] at h1
        rw [drop_take_append_low _ _ _ _ (Nat.le_trans h1 hik)]
      · have hj' : done.length / k < j := by omega
        have h1 : done.length / k * k + k ≤ j * k := by
          have := Nat.mul_le_mul_right k hj'
          rw [Nat.succ_mul] at this
          exact this
        rw [drop_take_append_high _ _ _ _ (Nat.lt_of_lt_of_le hcap h1)]
    · rw [if_neg hjR, if_neg hjR]

lemma branch_index (k m : Nat) (hk : 0 < k) :
    (if min k (m - rowIdx k m * k) = k then rowIdx k m + 1 else rowIdx k m) = m / k := by
  rcases Nat.eq_zero_or_pos m with hm0 | hm0
  · subst hm0
    have h0 : rowIdx k 0 = 0 := by simp [rowIdx]
    rw [h0, if_neg (by omega), Nat.zero_div]
  · obtain ⟨m', rfl⟩ : ∃ m', m = m' + 1 := ⟨m - 1, by omega⟩
    have hidx : rowIdx k (m' + 1) = m' / k := by simp [rowIdx]
    rw [hidx]
    have hd : k * (m' / k) + m' % k = m' := Nat.div_add_mod m' k
    have hrb : m' % k < k := Nat.mod_lt _ hk
    obtain ⟨q, hq⟩ : ∃ q, m' / k = q := ⟨_, rfl⟩
    obtain ⟨r, hr⟩ : ∃ r, m' % k = r := ⟨_, rfl⟩
    rw [hq] at hd
    rw [hr] at hd hrb
    rw [hq, Nat.mul_comm q k]
    obtain ⟨P, hP⟩ : ∃ P, k * q = P := ⟨_, rfl⟩
    rw [hP] at hd ⊢
    have h1 : m' + 1 - P = r + 1 := by omega
    rw [h1]
    have hm1 : m' + 1 = k * q + (r + 1) := by rw [hP]; omega
    by_cases hful : r + 1 = k
    · rw [if_pos (by omega), hm1, hful, ← Nat.mul_succ, Nat.mul_div_cancel_left _ hk]
    · rw [if_neg (by omega), hm1, Nat.mul_add_div hk, Nat.div_eq_of_lt (by omega), Nat.add_zero]

lemma layoutStep_expected (k R : Nat) (hk : 0 < k) (done : List α) (c : α)
    (hm : done.length < R * k) :
    layoutStep k (expectedRows k R done, rowIdx k done.length) c =
      some (expectedRows k R (done ++ [c]), rowIdx k (done.length + 1)) := by
  have hi'R : done.length / k < R := (Nat.div_lt_iff_lt_mul hk).2 hm
  have hiR : rowIdx k done.length < R :=
    Nat.lt_of_le_of_lt (Nat.div_le_div_right (Nat.sub_le _ 1)) hi'R
  have hros : rowIdx k (done.length + 1) = done.length / k := by
    simp [rowIdx]
  simp only [layoutStep, expectedRows_getElem, if_pos hiR, Option.some_bind,
    List.length_take, List.length_drop, branch_index k done.length hk, if_pos hi'R]
  rw [expectedRows_set_append k R hk done c hi'R, hros]

lemma layoutFold_expected (k R : Nat) (hk : 0 < k) :
    ∀ (rest done : List α), done.length + rest.length ≤ R * k →
      List.foldlM (layoutStep k) (expectedRows k R done, rowIdx k done.length) rest =
        some (expectedRows k R (done ++ rest), rowIdx k (done.length + rest.length))
  | [], done, _ => by simp
  | c :: rest, done, h => by
    have hlt : done.length < R * k := by simp at h; omega
    have h2 : (done ++ [c]).length + rest.length ≤ R * k := by simp at h ⊢; omega
    have h3 := layoutFold_expected k R hk rest (done ++ [c]) h2
    calc List.foldlM (layoutStep k) (expectedRows k R done, rowIdx k done.length) (c :: rest)
        = List.foldlM (layoutStep k)
            (expectedRows k R (done ++ [c]), rowIdx k (done.length + 1)) rest := by
          rw [List.foldlM_cons, layoutStep_expected k R hk done c hlt]
          rfl
      _ = some (expectedRows k R (done ++ c :: rest),
            rowIdx k (done.length + (c :: rest).length)) := by
          simp only [List.length_append, List.length_cons, List.length_nil,
            Nat.zero_add] at h3
          rw [h3]
          have e1 : (done ++ [c]) ++ rest = done ++ c :: rest := by simp
          have e2 : done.length + 1 + rest.length = done.length + (c :: rest).length := by
            simp only [List.length_cons]
            omega
          rw [e1, e2]

lemma capacity (k n : Nat) (hk : 0 < k) : n ≤ totalRowsFor k n * k := by
  unfold totalRowsFor
  have hd : k * ((n + k - 1) / k) + (n + k - 1) % k = n + k - 1 := Nat.div_add_mod _ k
  have hm : (n + k - 1) % k < k := Nat.mod_lt _ hk
  rw [Nat.mul_comm]
  omega

lemma layoutCards_eq (k : Nat) (hk : 0 < k) (cards : List α) :
    layoutCards k cards =
      some (expectedRows k (totalRowsFor k cards.length) cards, rowIdx k cards.length) := by
  have h1 : List.replicate (totalRowsFor k cards.length) ([] : List α) =
      expectedRows k (totalRowsFor k cards.length) ([] : List α) := by
    simp [expectedRows, List.map_const']
  have h2 := layoutFold_expected k (totalRowsFor k cards.length) hk cards []
    (by simpa using capacity k cards.length hk)
  simp only [List.nil_append, List.length_nil, Nat.zero_add] at h2
  rw [show rowIdx k 0 = 0 by simp [rowIdx]] at h2
  unfold layoutCards
  rw [h1]
  exact h2

lemma expectedRows_succ (k R : Nat) (l : List α) :
    expectedRows k (R + 1) l = l.take k :: expectedRows k R (l.drop k) := by
  unfold expectedRows
  rw [List.range_succ_eq_map, List.map_cons]
  congr 1
  · simp
  · rw [List.map_map]
    apply List.map_congr_left
    intro j _
    simp only [Function.comp_apply]
    rw [List.drop_drop]
    congr 2
    rw [Nat.succ_mul, Nat.add_comm]

lemma flatten_expectedRows (k : Nat) (hk : 0 < k) :
    ∀ (R : Nat) (l : List α), l.length ≤ R * k → (expectedRows k R l).flatten = l
  | 0, l, h => by
    have h0 : l = [] := List.length_eq_zero.mp (by simpa using h)
    simp [h0, expectedRows]
  | R + 1, l, h => by
    have hrec : (l.drop k).length ≤ R * k := by
      rw [List.length_drop]
      rw [Nat.succ_mul] at h
      omega
    rw [expectedRows_succ, List.flatten_cons, flatten_expectedRows k hk R (l.drop k) hrec,
      List.take_append_drop]

lemma rows_full (k n : Nat) (hk : 0 < k) (j : Nat) (hj : j + 1 < totalRowsFor k n) :
    j * k + k ≤ n := by
  unfold totalRowsFor at hj
  have h2 : (j + 2) * k ≤ n + k - 1 := (Nat.le_div_iff_mul_le hk).mp hj
  have h3 : (j + 2) * k = j * k + 2 * k := by ring
  omega

/-- C4: for every card count ≥ 0 and cardsPerRow ≥ 1, the card grid layout
produces exactly `⌈cardCount / cardsPerRow⌉ = (cardCount + cardsPerRow - 1) /
cardsPerRow` rows, the per-row card counts sum to the card count, every row
except possibly the last holds exactly `cardsPerRow` cards, and concatenating
the rows top-to-bottom reproduces the input card order exactly (no card
reordered, split, or dropped). -/
theorem layoutCards_spec (k : Nat) (hk : 1 ≤ k) (cards : List α) :
    ∃ rows idx, layoutCards k cards = some (rows, idx) ∧
      rows.length = (cards.length + k - 1) / k ∧
      rows.flatten = cards ∧
      (rows.map List.length).sum = cards.length ∧
      (∀ j, j + 1 < rows.length → ∃ row, rows[j]? = some row ∧ row.length = k) := by
  have hflat : (expectedRows k (totalRowsFor k cards.length) cards).flatten = cards :=
    flatten_expectedRows k hk _ cards (capacity k cards.length hk)
  refine ⟨expectedRows k (totalRowsFor k cards.length) cards, rowIdx k cards.length,
    layoutCards_eq k hk cards, expectedRows_length k _ cards, hflat, ?_, ?_⟩
  · rw [← List.length_flatten, hflat]
  · intro j hj
    rw [expectedRows_length] at hj
    rw [expectedRows_getElem, if_pos (by omega)]
    refine ⟨_, rfl, ?_⟩
    rw [List.length_take, List.length_drop]
    have := rows_full k cards.length hk j hj
    omega

/-- C4 witness: 7 cards with `cardsPerRow = 3` satisfy the layout contract,
and the grid is concretely `[[10,20,30],[40,50,60],[70]]` — rows of sizes
`[3, 3, 1]`. -/
theorem layoutCards_spec_witness :
    (∃ rows idx, layoutCards 3 ([10, 20, 30, 40, 50, 60, 70] : List Nat) = some (rows, idx) ∧
      rows.length = (([10, 20, 30, 40, 50, 60, 70] : List Nat).length + 3 - 1) / 3 ∧
      rows.flatten = [10, 20, 30, 40, 50, 60, 70] ∧
      (rows.map List.length).sum = ([10, 20, 30, 40, 50, 60, 70] : List Nat).length ∧
      (∀ j, j + 1 < rows.length → ∃ row, rows[j]? = some row ∧ row.length = 3)) ∧
    layoutCards 3 ([10, 20, 30, 40, 50, 60, 70] : List Nat) =
      some ([[10, 20, 30], [40, 50, 60], [70]], 2) :=
  ⟨layoutCards_spec 3 (by decide) _, by decide⟩

/-- C9: for every `cardsPerRow ≥ 1` and every card list, the layout row-walk
never accesses a row index out of bounds: the instrumented loop (where every
slice access is checked and an out-of-bounds access yields `none`) always
returns `some`. -/
theorem layout_row_walk_in_bounds (k : Nat) (hk : 1 ≤ k) (cards : List α) :
    (layoutCards k cards).isSome = true := by
  rw [layoutCards_eq k hk cards]
  rfl

/-- C9 witness: concrete instance of the in-bounds theorem. -/
theorem layout_row_walk_in_bounds_witness :
    1 ≤ 3 ∧ (layoutCards 3 ([0, 1, 2, 3, 4, 5, 6] : List Nat)).isSome = true :=
  ⟨by decide, layout_row_walk_in_bounds 3 (by decide) _⟩

/-! Lemmas about the health summarizer and the elapsed averager. -/

lemma renderHealthAux_eq : ∀ (l : List run) (i : Nat) (res : String),
    renderHealthAux i res l = res ++ joinSyms ((l.take (defaultMaxRuns + 1 - i)).map healthSymbol)
  | [], i, res => by
    simp only [renderHealthAux, List.take_nil, List.map_nil, joinSyms, String.append_empty]
  | r :: rest, i, res => by
    by_cases hi : i > defaultMaxRuns
    · simp only [renderHealthAux, if_pos hi]
      have h0 : defaultMaxRuns + 1 - i = 0 := by
        simp only [defaultMaxRuns] at hi ⊢
        omega
      rw [h0]
      simp only [List.take_zero, List.map_nil, joinSyms, String.append_empty]
    · simp only [renderHealthAux, if_neg hi]
      rw [renderHealthAux_eq rest (i + 1) (res ++ healthSymbol r)]
      have h6 : defaultMaxRuns + 1 - i = (defaultMaxRuns + 1 - (i + 1)) + 1 := by
        simp only [defaultMaxRuns] at hi ⊢
        omega
      rw [h6, List.take_succ_cons, List.map_cons]
      show res ++ healthSymbol r ++ _ = res ++ joinSyms (healthSymbol r :: _)
      rw [String.append_assoc]
      congr 1

lemma averageElapsedAux_eq : ∀ (l : List run) (i : Nat) (t : Int),
    averageElapsedAux i t l = t + ((l.take (defaultMaxRuns + 1 - i)).map elapsedSeconds).sum
  | [], i, t => by
    simp only [averageElapsedAux, List.take_nil, List.map_nil, List.sum_nil, Int.add_zero]
  | r :: rest, i, t => by
    by_cases hi : i > defaultMaxRuns
    · simp only [averageElapsedAux, if_pos hi]
      have h0 : defaultMaxRuns + 1 - i = 0 := by
        simp only [defaultMaxRuns] at hi ⊢
        omega
      rw [h0]
      simp only [List.take_zero, List.map_nil, List.sum_nil, Int.add_zero]
    · simp only [averageElapsedAux, if_neg hi]
      rw [averageElapsedAux_eq rest (i + 1) (t + r.Elapsed.tdiv 1000000000)]
      have h6 : defaultMaxRuns + 1 - i = (defaultMaxRuns + 1 - (i + 1)) + 1 := by
        simp only [defaultMaxRuns] at hi ⊢
        omega
      rw [h6, List.take_succ_cons, List.map_cons, List.sum_cons]
      simp only [elapsedSeconds]
      omega

lemma averageElapsed_formula (w : workflow) :
    w.AverageElapsed =
      (((w.Runs.take (defaultMaxRuns + 1)).map elapsedSeconds).sum.tdiv (defaultMaxRuns : Int))
        * 1000000000 := by
  unfold workflow.AverageElapsed
  rw [averageElapsedAux_eq, Nat.sub_zero, Int.zero_add]

/-- C5: for every workflow, the health string is the concatenation, in input
order, of one symbol per run over the first `defaultMaxRuns + 1 = 6` runs,
where `healthSymbol` maps status ≠ "completed" to "-", conclusion "success"
to "✓", conclusions skipped/cancelled/neutral to "-", and anything else to
"x"; in particular the run conclusions
`[success, failure, skipped, success, success]` yield `✓ x - ✓ ✓`. -/
theorem renderHealth_spec (w : workflow) :
    w.RenderHealth = joinSyms ((w.Runs.take (defaultMaxRuns + 1)).map healthSymbol) ∧
    workflow.RenderHealth
      { Name := "wf",
        Runs := [{ Finished := 0, Elapsed := 0, Status := "completed", Conclusion := "success",
                   URL := "u1" },
                 { Finished := 0, Elapsed := 0, Status := "completed", Conclusion := "failure",
                   URL := "u2" },
                 { Finished := 0, Elapsed := 0, Status := "completed", Conclusion := "skipped",
                   URL := "u3" },
                 { Finished := 0, Elapsed := 0, Status := "completed", Conclusion := "success",
                   URL := "u4" },
                 { Finished := 0, Elapsed := 0, Status := "completed", Conclusion := "success",
                   URL := "u5" }],
        BillableMs := 0 } = "✓x-✓✓" := by
  constructor
  · unfold workflow.RenderHealth
    rw [renderHealthAux_eq, Nat.sub_zero, String.empty_append]
  · decide

/-- C2: for every workflow, `AverageElapsed` is the sum of the truncated
whole-second elapsed values over the first `defaultMaxRuns + 1 = 6` runs
(missing runs contributing zero), divided by the fixed cap `defaultMaxRuns =
5` — not by the number of runs examined — and re-expressed as a duration in
nanoseconds. -/
theorem averageElapsed_fixed_divisor (w : workflow) :
    w.AverageElapsed =
      (((w.Runs.take (defaultMaxRuns + 1)).map elapsedSeconds).sum.tdiv (defaultMaxRuns : Int))
        * 1000000000 :=
  averageElapsed_formula w

/-- C10: `AverageElapsed` is truncating integer arithmetic throughout: the
result is always a whole number of seconds (divisible by 10⁹ ns), and
truncating every run's elapsed duration toward zero to whole seconds
beforehand does not change the result, i.e. the sub-second components of the
runs' elapsed durations never affect it. -/
theorem averageElapsed_truncation (w : workflow) :
    (1000000000 : Int) ∣ w.AverageElapsed ∧
    workflow.AverageElapsed
        { Name := w.Name,
          Runs := w.Runs.map (fun r =>
            { r with Elapsed := r.Elapsed.tdiv 1000000000 * 1000000000 }),
          BillableMs := w.BillableMs } = w.AverageElapsed := by
  constructor
  · rw [averageElapsed_formula]
    exact dvd_mul_left _ _
  · rw [averageElapsed_formula, averageElapsed_formula]
    have hmap : ((w.Runs.map (fun r =>
          { r with Elapsed := r.Elapsed.tdiv 1000000000 * 1000000000 })).take
            (defaultMaxRuns + 1)).map elapsedSeconds =
        (w.Runs.take (defaultMaxRuns + 1)).map elapsedSeconds := by
      rw [← List.map_take, List.map_map]
      apply List.map_congr_left
      intro r _
      simp only [Function.comp_apply, elapsedSeconds]
      exact Int.mul_tdiv_cancel _ (by norm_num)
    rw [hmap]

/-! Workflow name truncation. -/

/-- C8: `truncateWorkflowName` returns the name unchanged when its length is
at most the limit, and returns exactly `limit` characters followed by the
ellipsis marker "..." when its length exceeds the limit. -/
theorem truncateWorkflowName_spec (name : String) (len : Nat) :
    (name.length ≤ len → truncateWorkflowName name len = name) ∧
    (name.length > len →
      truncateWorkflowName name len = String.mk (name.toList.take len) ++ "..." ∧
      (String.mk (name.toList.take len)).length = len) := by
  constructor
  · intro h
    unfold truncateWorkflowName
    rw [if_neg (by omega)]
  · intro h
    unfold truncateWorkflowName
    rw [if_pos h]
    refine ⟨rfl, ?_⟩
    have e1 : (String.mk (name.toList.take len)).length = (name.toList.take len).length := rfl
    have e2 : name.toList.length = name.length := rfl
    rw [e1, List.length_take, e2]
    omega

/-- C8 witness: a 6-character name passes through a limit of 17 unchanged; a
22-character name truncated to limit 4 is exactly 4 characters plus "...". -/
theorem truncateWorkflowName_spec_witness :
    ("checks".length ≤ 17 ∧ truncateWorkflowName "checks" 17 = "checks") ∧
    ("integration-test-suite".length > 4 ∧
      truncateWorkflowName "integration-test-suite" 4 =
        String.mk ("integration-test-suite".toList.take 4) ++ "..." ∧
      (String.mk ("integration-test-suite".toList.take 4)).length = 4) :=
  ⟨⟨by decide, (truncateWorkflowName_spec "checks" 17).1 (by decide)⟩,
   ⟨by decide, (truncateWorkflowName_spec "integration-test-suite" 4).2 (by decide)⟩⟩

/-! Lemmas about the run filter. -/

lemma keepRun_eq (now last : Int) (r : runPayload) :
    keepRun now last r =
      if r.Status = "completed" ∧ now - r.UpdatedAt < last then some (mkRun r) else none := by
  simp only [keepRun]
  by_cases h1 : r.Status = "completed"
  · by_cases h2 : now - r.UpdatedAt < last
    · rw [if_pos h1, if_pos (show last - (now - r.UpdatedAt) > 0 by omega), if_pos ⟨h1, h2⟩]
      rfl
    · rw [if_pos h1, if_neg (show ¬last - (now - r.UpdatedAt) > 0 by omega),
        if_neg (fun hc => h2 hc.2)]
  · rw [if_neg h1, if_neg (fun hc => h1 hc.1)]

lemma filterRuns_eq (now last : Int) (rs : List runPayload) :
    filterRuns now last rs =
      (rs.filter (fun r =>
        decide (r.Status = "completed") && decide (now - r.UpdatedAt < last))).map mkRun := by
  induction rs with
  | nil => rfl
  | cons r rest ih =>
    simp only [filterRuns, List.filterMap_cons] at ih ⊢
    rw [keepRun_eq]
    by_cases hc : r.Status = "completed" ∧ now - r.UpdatedAt < last
    · rw [if_pos hc, List.filter_cons_of_pos (by simpa using hc), List.map_cons, ih]
    · rw [if_neg hc, List.filter_cons_of_neg (by simpa using hc), ih]

/-- C3: the Run Filter output is exactly the order-preserving subsequence of
the completed runs with `now - finishedAt < window`: it equals filtering the
payloads by that predicate and building the completed-run record, it never
grows the list, it is a sublist (order-preserving subsequence) of the input,
and a completed run finished 30 hours ago is excluded under a 24-hour
window. -/
theorem filterRuns_spec (now last : Int) (rs : List runPayload) :
    filterRuns now last rs =
      (rs.filter (fun r =>
        decide (r.Status = "completed") && decide (now - r.UpdatedAt < last))).map mkRun ∧
    (filterRuns now last rs).length ≤ rs.length ∧
    (filterRuns now last rs).Sublist (rs.map mkRun) ∧
    filterRuns 0 86400000000000
      [{ Id := 1, CreatedAt := -108000000000000, UpdatedAt := -108000000000000,
         Status := "completed", Conclusion := "success", URL := "u" }] = [] := by
  refine ⟨filterRuns_eq now last rs, ?_, ?_, by decide⟩
  · rw [filterRuns_eq, List.length_map]
    exact List.length_filter_le _ rs
  · rw [filterRuns_eq]
    exact List.Sublist.map mkRun (List.filter_sublist rs)

/-! Lemmas about getWorkflows and the billing accumulator. -/

lemma getWorkflowsAux_public (now last : Int) (runsOf : String → List runPayload)
    (b1 b2 : String → billablePayload) :
    ∀ (ws : List workflowPayload) (t : Int),
      getWorkflowsAux false now last runsOf b1 t ws =
        getWorkflowsAux false now last runsOf b2 t ws ∧
      ∀ w ∈ getWorkflowsAux false now last runsOf b1 t ws, w.BillableMs = t
  | [], t => ⟨rfl, by simp [getWorkflowsAux]⟩
  | w :: rest, t => by
    have ih := getWorkflowsAux_public now last runsOf b1 b2 rest
    by_cases hd : hasPrefixStr w.State "disabled"
    · simp only [getWorkflowsAux, if_pos hd]
      exact ih t
    · simp only [getWorkflowsAux, if_neg hd, Bool.false_eq_true, if_false]
      constructor
      · rw [(ih t).1]
      · intro w' hw'
        rcases List.mem_cons.mp hw' with h | h
        · rw [h]
        · exact (ih t).2 w' h

/-- C6: for a public (`private == false`) repository, every workflow's
`BillableMs` is zero whatever the run data, and the billing fetch is never
consulted: the result does not depend on the billing function at all. -/
theorem getWorkflows_public_zero (now last : Int) (runsOf : String → List runPayload)
    (b1 b2 : String → billablePayload) (ws : List workflowPayload) :
    (∀ w ∈ getWorkflows false now last runsOf b1 ws, w.BillableMs = 0) ∧
    getWorkflows false now last runsOf b1 ws = getWorkflows false now last runsOf b2 ws := by
  unfold getWorkflows
  exact ⟨(getWorkflowsAux_public now last runsOf b1 b2 ws 0).2,
         (getWorkflowsAux_public now last runsOf b1 b2 ws 0).1⟩

/-- C6 witness: a public repository with one workflow and nonzero billing
data still reports `BillableMs = 0`. -/
theorem getWorkflows_public_zero_witness :
    ({ Name := "wf", Runs := [], BillableMs := 0 } : workflow) ∈
      getWorkflows false 0 3600000000000 (fun _ => [])
        (fun _ => { MacOs := 7, Windows := 7, Ubuntu := 7 })
        [{ Id := 1, State := "active", Name := "wf", URL := "u" }] ∧
    ({ Name := "wf", Runs := [], BillableMs := 0 } : workflow).BillableMs = 0 := by
  have hm : ({ Name := "wf", Runs := [], BillableMs := 0 } : workflow) ∈
      getWorkflows false 0 3600000000000 (fun _ => [])
        (fun _ => { MacOs := 7, Windows := 7, Ubuntu := 7 })
        [{ Id := 1, State := "active", Name := "wf", URL := "u" }] := by decide
  exact ⟨hm, (getWorkflows_public_zero 0 3600000000000 (fun _ => [])
    (fun _ => { MacOs := 7, Windows := 7, Ubuntu := 7 })
    (fun _ => { MacOs := 7, Windows := 7, Ubuntu := 7 })
    [{ Id := 1, State := "active", Name := "wf", URL := "u" }]).1 _ hm⟩

/-- C1: the source declares `var totalMs int` once before the workflow loop
(src/main.go:339) and never resets it, so for a private repository a later
workflow's `BillableMs` includes the totals of earlier workflows: with two
one-run workflows billing 100 ms and 5 ms, the computed `BillableMs` values
are `[100, 105]`, not `[100, 5]`. -/
theorem getWorkflows_billable_accumulator_leak :
    (getWorkflows true 0 3600000000000
      (fun u => if u = "u1"
        then [{ Id := 1, CreatedAt := 0, UpdatedAt := 0, Status := "completed",
                Conclusion := "success", URL := "r1" }]
        else [{ Id := 2, CreatedAt := 0, UpdatedAt := 0, Status := "completed",
                Conclusion := "success", URL := "r2" }])
      (fun u => if u = "r1" then { MacOs := 100, Windows := 0, Ubuntu := 0 }
        else { MacOs := 5, Windows := 0, Ubuntu := 0 })
      [{ Id := 1, State := "active", Name := "w1", URL := "u1" },
       { Id := 2, State := "active", Name := "w2", URL := "u2" }]).map workflow.BillableMs
      = [100, 105] ∧ (105 : Int) ≠ 5 := by
  exact ⟨by decide, by decide⟩

/-- C7: for a workflow with an empty filtered run list the health string is
empty and the average elapsed duration is zero, but `BillableMs` is NOT
necessarily zero: in a private repository where an earlier workflow billed
100 ms, an empty-run second workflow still reports `BillableMs = 100`. -/
theorem empty_runs_card_fields :
    (getWorkflows true 0 3600000000000
      (fun u => if u = "u1"
        then [{ Id := 1, CreatedAt := 0, UpdatedAt := 0, Status := "completed",
                Conclusion := "success", URL := "r1" }]
        else [])
      (fun _ => { MacOs := 100, Windows := 0, Ubuntu := 0 })
      [{ Id := 1, State := "active", Name := "w1", URL := "u1" },
       { Id := 2, State := "active", Name := "w2", URL := "u2" }])[1]? =
      some { Name := "w2", Runs := [], BillableMs := 100 } ∧
    workflow.RenderHealth { Name := "w2", Runs := [], BillableMs := 100 } = "" ∧
    workflow.AverageElapsed { Name := "w2", Runs := [], BillableMs := 100 } = 0 ∧
    (100 : Int) ≠ 0 := by
  exact ⟨by decide, rfl, by decide, by decide⟩

end ActionsDashboard
